import Mathlib

/-!
Shallow embedding of the rsproxy/http parsing core (`src/lib.rs`).

Rust `&str` / `String` values are modelled as `List Char`.  The string
helpers (`trim`, `split`, `splitn`, `split_whitespace`,
`to_ascii_lowercase`) are modelled with the semantics of the Rust
standard library on the character sets the parser deals with.
Fallible Rust functions returning `Result<_, String>` are modelled with
`Except (List Char) _`; `HttpRequest::new` additionally performs
unchecked slice indexing (`request_line[0]`, `request_line[1]`) that can
panic, so its outcome type has an explicit `panic` constructor.
-/

namespace RsHttp

/-- Rust `char::is_whitespace` (the ASCII fragment relevant to HTTP text),
as used by `str::trim` and `str::split_whitespace`. -/
def isWS (c : Char) : Bool := c.isWhitespace

/-- Rust `str::trim`: remove leading and trailing whitespace. -/
def trim (s : List Char) : List Char :=
  ((s.dropWhile isWS).reverse.dropWhile isWS).reverse

/-- Rust `str::to_ascii_lowercase` (Lean's `Char.toLower` lowercases
exactly the ASCII uppercase letters, matching Rust's ASCII lowercasing). -/
def toAsciiLowercase (s : List Char) : List Char := s.map Char.toLower

/-- Rust `str::split("\r\n")`: split on the non-overlapping occurrences of
the two-character pattern CRLF, leftmost match first.  Splitting always
yields at least one piece; the empty string yields `[[]]`. -/
def splitCRLF : List Char → List (List Char)
  | [] => [[]]
  | [c] => [[c]]
  | c1 :: c2 :: rest =>
    if c1 = '\r' ∧ c2 = '\n' then
      [] :: splitCRLF rest
    else
      match splitCRLF (c2 :: rest) with
      | [] => [[c1]]
      | l :: ls => (c1 :: l) :: ls

/-- Rust `str::splitn(2, ":")`: split at the first colon only, leaving the
remainder (which may itself contain colons) as the second piece. -/
def splitnColon : List Char → List (List Char)
  | [] => [[]]
  | c :: rest =>
    if c = ':' then
      [[], rest]
    else
      match splitnColon rest with
      | [] => [[c]]
      | l :: ls => (c :: l) :: ls

/-- `HttpHeaderSplitTrim::split_trim(self, "\r\n")`:
`self.split(pattern).map(|s| s.trim()).collect()`. -/
def split_trim (s : List Char) : List (List Char) :=
  (splitCRLF s).map trim

/-- `HttpHeaderSplitTrim::splitn_trim(self, 2, ":")`:
`self.splitn(n, pattern).map(|s| s.trim()).collect()`. -/
def splitn_trim (s : List Char) : List (List Char) :=
  (splitnColon s).map trim

/-- Rust `str::split_whitespace`: the maximal runs of non-whitespace
characters, in order (no empty tokens). -/
def split_whitespace (s : List Char) : List (List Char) :=
  (s.splitOnP isWS).filter (fun l => !l.isEmpty)

/-- `enum HttpMethod` from `src/lib.rs`. -/
inductive HttpMethod where
  | Options | Get | Header | Post | Put | Delete | Trace
  | Extension (s : List Char)
  deriving DecidableEq, Repr

/-- `enum HttpHeaderName` from `src/lib.rs`. -/
inductive HttpHeaderName where
  | Accept | AcceptCharset | AcceptEncoding | Host | Referer | UserAgent
  | Custom (s : List Char)
  deriving DecidableEq, Repr

/-- `struct HttpHeader` from `src/lib.rs`. -/
structure HttpHeader where
  name : HttpHeaderName
  value : List Char
  deriving DecidableEq, Repr

/-- The error string `format!("Too many parts after line split: {}", n)`. -/
def tooManyPartsMsg (n : Nat) : List Char :=
  ("Too many parts after line split: ").toList ++ (toString n).toList

/-- The error string `format!("No CRLF in request: {}", header)`. -/
def noCRLFMsg (header : List Char) : List Char :=
  ("No CRLF in request: ").toList ++ header

/-- The `if`/`else if` chain of `HttpHeader::new` classifying the lowered
name; every branch calls `build_request`, i.e. wraps the chosen name with
the (already trimmed) value.  `Custom` carries `parts[0].to_string()`,
the trimmed but original-case name text. -/
def headerNameFor (lowered original : List Char) : HttpHeaderName :=
  if lowered = ("accept").toList then .Accept
  else if lowered = ("accept-charset").toList then .AcceptCharset
  else if lowered = ("accept-encoding").toList then .AcceptEncoding
  else if lowered = ("host").toList then .Host
  else if lowered = ("user-agent").toList then .UserAgent
  else if lowered = ("referer").toList then .Referer
  else .Custom original

/-- `HttpHeader::new`.  After the length check `parts.len() != 2` the code
indexes `parts[0]` and `parts[1]`; both are in bounds there, modelled with
`getD`. -/
def HttpHeader.new (line : List Char) : Except (List Char) HttpHeader :=
  let parts := splitn_trim line
  if parts.length ≠ 2 then
    .error (tooManyPartsMsg parts.length)
  else
    .ok { name := headerNameFor (toAsciiLowercase (parts.getD 0 [])) (parts.getD 0 [])
        , value := parts.getD 1 [] }

/-- The `match request_line[0].to_ascii_lowercase().as_ref()` table of
`HttpRequest::new`.  Note that the catch-all arm binds the *lowercased*
token `x` and stores `Extension(x.to_string())`. -/
def methodOfToken (t : List Char) : HttpMethod :=
  let x := toAsciiLowercase t
  if x = ("options").toList then .Options
  else if x = ("get").toList then .Get
  else if x = ("header").toList then .Header
  else if x = ("post").toList then .Post
  else if x = ("put").toList then .Put
  else if x = ("delete").toList then .Delete
  else if x = ("trace").toList then .Trace
  else .Extension x

/-- `struct HttpRequest` from `src/lib.rs`. -/
structure HttpRequest where
  method : HttpMethod
  uri : List Char
  headers : List HttpHeader
  deriving DecidableEq, Repr

/-- Outcome of running a Rust function that may return `Ok`, return `Err`,
or panic (out-of-bounds slice indexing). -/
inductive ParseOutcome (ε α : Type) where
  | panic : ParseOutcome ε α
  | err (e : ε) : ParseOutcome ε α
  | ok (a : α) : ParseOutcome ε α
  deriving DecidableEq, Repr

/-- `HttpRequest::new`.  The code evaluates `request_line[0]` (panicking on
an empty token list), computes the method, then evaluates
`request_line[1]` (panicking when there is no second token); both panics
are the same observable outcome, so they are matched together. -/
def HttpRequest.new (header : List Char) : ParseOutcome (List Char) HttpRequest :=
  let lines := split_trim header
  if lines.length = 0 then
    .err (noCRLFMsg header)
  else
    let request_line := split_whitespace (lines.getD 0 [])
    match request_line.get? 0, request_line.get? 1 with
    | some t0, some t1 =>
      .ok { method := methodOfToken t0
          , uri := t1
          , headers := (lines.drop 1).filterMap (fun l => (HttpHeader.new l).toOption) }
    | _, _ => .panic

/-! ### Spec-side descriptions used by the relational claims -/

/-- The seven method tokens recognized by the `match` in `HttpRequest::new`,
in their canonical lowercase spelling (the spec's method table). -/
def recognizedMethodTokens : List (List Char) :=
  [("options").toList, ("get").toList, ("header").toList, ("post").toList,
   ("put").toList, ("delete").toList, ("trace").toList]

/-- The spec's header-name classification table: canonical lowercase
spelling paired with the classified variant. -/
def recognizedHeaderTable : List (List Char × HttpHeaderName) :=
  [(("accept").toList, .Accept),
   (("accept-charset").toList, .AcceptCharset),
   (("accept-encoding").toList, .AcceptEncoding),
   (("host").toList, .Host),
   (("user-agent").toList, .UserAgent),
   (("referer").toList, .Referer)]

/-- Modelled from the spec (§3, §7): the output header sequence of a list
of header lines keeps exactly the successfully parsed headers, in order of
appearance, and silently skips every line whose parse fails. -/
inductive HeadersOfLines : List (List Char) → List HttpHeader → Prop where
  | nil : HeadersOfLines [] []
  | keep {l : List Char} {ls : List (List Char)} {h : HttpHeader}
      {hs : List HttpHeader} :
      HttpHeader.new l = .ok h → HeadersOfLines ls hs →
      HeadersOfLines (l :: ls) (h :: hs)
  | skip {l : List Char} {ls : List (List Char)} {e : List Char}
      {hs : List HttpHeader} :
      HttpHeader.new l = .error e → HeadersOfLines ls hs →
      HeadersOfLines (l :: ls) hs

/-! ### Helper lemmas about the string model -/

theorem splitCRLF_cons_cons (c1 c2 : Char) (rest : List Char) :
    splitCRLF (c1 :: c2 :: rest) =
      if c1 = '\r' ∧ c2 = '\n' then
        [] :: splitCRLF rest
      else
        match splitCRLF (c2 :: rest) with
        | [] => [[c1]]
        | l :: ls => (c1 :: l) :: ls := by
  rw [splitCRLF]

theorem splitCRLF_ne_nil (s : List Char) : splitCRLF s ≠ [] := by
  induction s using splitCRLF.induct with
  | case1 => simp [splitCRLF]
  | case2 c => simp [splitCRLF]
  | case3 c1 c2 rest h ih => simp [splitCRLF_cons_cons, h]
  | case4 c1 c2 rest h hnil ih => exact absurd hnil ih
  | case5 c1 c2 rest h l ls hcons ih =>
    rw [splitCRLF_cons_cons, if_neg h, hcons]
    simp

theorem splitCRLF_append (a x : List Char) :
    splitCRLF (a ++ '\r' :: '\n' :: x) = splitCRLF a ++ splitCRLF x := by
  induction a using splitCRLF.induct with
  | case1 =>
    rw [List.nil_append, splitCRLF_cons_cons, if_pos ⟨rfl, rfl⟩]
    rfl
  | case2 c =>
    have hne : ¬(c = '\r' ∧ ('\r' : Char) = '\n') := by
      rintro ⟨-, h⟩
      exact absurd h (by decide)
    rw [List.cons_append, List.nil_append, splitCRLF_cons_cons, if_neg hne,
        splitCRLF_cons_cons, if_pos ⟨rfl, rfl⟩]
    rfl
  | case3 c1 c2 rest h ih =>
    rw [List.cons_append, List.cons_append, splitCRLF_cons_cons, if_pos h,
        splitCRLF_cons_cons, if_pos h, ih]
    rfl
  | case4 c1 c2 rest h hnil ih => exact absurd hnil (splitCRLF_ne_nil _)
  | case5 c1 c2 rest h l ls hcons ih =>
    rw [List.cons_append, List.cons_append, splitCRLF_cons_cons, if_neg h,
        ← List.cons_append, ih, hcons, splitCRLF_cons_cons, if_neg h, hcons]
    rfl

theorem splitnColon_cons (c : Char) (rest : List Char) :
    splitnColon (c :: rest) =
      if c = ':' then
        [[], rest]
      else
        match splitnColon rest with
        | [] => [[c]]
        | l :: ls => (c :: l) :: ls := by
  rw [splitnColon]

theorem splitnColon_ne_nil (s : List Char) : splitnColon s ≠ [] := by
  induction s with
  | nil => simp [splitnColon]
  | cons c rest ih =>
    rw [splitnColon_cons]
    by_cases hc : c = ':'
    · simp [hc]
    · rw [if_neg hc]
      cases hs : splitnColon rest with
      | nil => exact absurd hs ih
      | cons l ls => simp

theorem splitnColon_no_colon (s : List Char) (h : ':' ∉ s) : splitnColon s = [s] := by
  induction s with
  | nil => rfl
  | cons c rest ih =>
    have hc : c ≠ ':' := fun hc => h (hc ▸ List.mem_cons_self c rest)
    rw [splitnColon_cons, if_neg hc, ih (fun hm => h (List.mem_cons_of_mem c hm))]

theorem splitnColon_append (a b : List Char) (h : ':' ∉ a) :
    splitnColon (a ++ ':' :: b) = [a, b] := by
  induction a with
  | nil => simp [splitnColon_cons]
  | cons c a ih =>
    have hc : c ≠ ':' := fun hc => h (hc ▸ List.mem_cons_self c a)
    rw [List.cons_append, splitnColon_cons, if_neg hc,
        ih (fun hm => h (List.mem_cons_of_mem c hm))]

theorem splitnColon_length (s : List Char) :
    (splitnColon s).length = if ':' ∈ s then 2 else 1 := by
  induction s with
  | nil => simp [splitnColon]
  | cons c rest ih =>
    rw [splitnColon_cons]
    by_cases hc : c = ':'
    · simp [hc]
    · rw [if_neg hc]
      cases hs : splitnColon rest with
      | nil => exact absurd hs (splitnColon_ne_nil rest)
      | cons l ls =>
        have hmem : (':' ∈ c :: rest) ↔ (':' ∈ rest) :=
          ⟨fun h => (List.mem_cons.mp h).resolve_left (fun h' => hc h'.symm),
           List.mem_cons_of_mem c⟩
        rw [hs] at ih
        simp only [List.length_cons] at ih ⊢
        rw [if_congr hmem rfl rfl]
        exact ih

theorem dropWhile_append_of_all {α : Type} {p : α → Bool} (w x : List α)
    (h : ∀ c ∈ w, p c = true) :
    List.dropWhile p (w ++ x) = List.dropWhile p x := by
  induction w with
  | nil => rfl
  | cons c w ih =>
    rw [List.cons_append, List.dropWhile_cons, if_pos (h c (List.mem_cons_self c w))]
    exact ih (fun d hd => h d (List.mem_cons_of_mem c hd))

theorem dropWhile_append_of_ne_nil {α : Type} {p : α → Bool} (x w : List α)
    (h : List.dropWhile p x ≠ []) :
    List.dropWhile p (x ++ w) = List.dropWhile p x ++ w := by
  induction x with
  | nil => simp at h
  | cons c x ih =>
    rw [List.cons_append, List.dropWhile_cons, List.dropWhile_cons]
    rw [List.dropWhile_cons] at h
    by_cases hc : p c
    · rw [if_pos hc, if_pos hc]
      rw [if_pos hc] at h
      exact ih h
    · rw [if_neg hc, if_neg hc, List.cons_append]

theorem dropWhile_eq_self_of_none {α : Type} {p : α → Bool} (v : List α)
    (h : ∀ c ∈ v, p c = false) :
    List.dropWhile p v = v := by
  cases v with
  | nil => rfl
  | cons c v =>
    rw [List.dropWhile_cons, if_neg (by simp [h c (List.mem_cons_self c v)])]

theorem trim_ws_left (w v : List Char) (h : ∀ c ∈ w, isWS c = true) :
    trim (w ++ v) = trim v := by
  unfold trim
  rw [dropWhile_append_of_all w v h]

theorem trim_ws_right (v w : List Char) (h : ∀ c ∈ w, isWS c = true) :
    trim (v ++ w) = trim v := by
  unfold trim
  by_cases hv : List.dropWhile isWS v = []
  · have hva : ∀ c ∈ v, isWS c = true := List.dropWhile_eq_nil_iff.mp hv
    have hw : List.dropWhile isWS w = [] := List.dropWhile_eq_nil_iff.mpr h
    rw [dropWhile_append_of_all v w hva, hv, hw]
  · rw [dropWhile_append_of_ne_nil v w hv, List.reverse_append,
        dropWhile_append_of_all _ _ (fun c hc => h c (List.mem_reverse.mp hc))]

theorem trim_pad (w1 v w2 : List Char) (h1 : ∀ c ∈ w1, isWS c = true)
    (h2 : ∀ c ∈ w2, isWS c = true) :
    trim (w1 ++ v ++ w2) = trim v := by
  rw [List.append_assoc, trim_ws_left _ _ h1, trim_ws_right _ _ h2]

theorem trim_no_ws (v : List Char) (h : ∀ c ∈ v, isWS c = false) : trim v = v := by
  unfold trim
  rw [dropWhile_eq_self_of_none v h,
      dropWhile_eq_self_of_none _ (fun c hc => h c (List.mem_reverse.mp hc)),
      List.reverse_reverse]

theorem ws_cases (c : Char) (h : isWS c = true) :
    c = ' ' ∨ c = '\t' ∨ c = '\r' ∨ c = '\n' := by
  have h' := h
  simp only [isWS, Char.isWhitespace, Bool.or_eq_true, decide_eq_true_eq] at h'
  tauto

theorem toLower_of_ws (c : Char) (h : isWS c = true) : Char.toLower c = c := by
  rcases ws_cases c h with rfl | rfl | rfl | rfl <;> decide

theorem ws_ne_colon (c : Char) (h : isWS c = true) : c ≠ ':' := by
  rcases ws_cases c h with rfl | rfl | rfl | rfl <;> decide

theorem no_ws_of_lower (t n : List Char) (h : toAsciiLowercase t = n)
    (hn : ∀ c ∈ n, isWS c = false) : ∀ c ∈ t, isWS c = false := by
  intro c hc
  cases hb : isWS c with
  | false => rfl
  | true =>
    have hmem : Char.toLower c ∈ n := h ▸ List.mem_map_of_mem Char.toLower hc
    rw [toLower_of_ws c hb] at hmem
    rw [hn c hmem] at hb
    exact absurd hb (by simp)

theorem no_colon_of_lower (t n : List Char) (h : toAsciiLowercase t = n)
    (hn : ':' ∉ n) : ':' ∉ t := by
  intro hc
  have hmem : Char.toLower ':' ∈ n := h ▸ List.mem_map_of_mem Char.toLower hc
  exact hn (by simpa using hmem)

/-! ### Characterizations of the two parsers -/

theorem split_trim_ne_nil (s : List Char) : split_trim s ≠ [] := by
  unfold split_trim
  simp only [ne_eq, List.map_eq_nil_iff]
  exact splitCRLF_ne_nil s

theorem header_new_split (p1 p2 : List Char) (h : ':' ∉ p1) :
    HttpHeader.new (p1 ++ ':' :: p2) =
      .ok ⟨headerNameFor (toAsciiLowercase (trim p1)) (trim p1), trim p2⟩ := by
  simp only [HttpHeader.new, splitn_trim, splitnColon_append p1 p2 h]
  simp [List.getD]

theorem header_new_err_iff (line : List Char) :
    (∃ e, HttpHeader.new line = .error e) ↔ ':' ∉ line := by
  have hl : (splitn_trim line).length = if ':' ∈ line then 2 else 1 := by
    unfold splitn_trim
    rw [List.length_map]
    exact splitnColon_length line
  simp only [HttpHeader.new]
  rw [hl]
  by_cases hc : ':' ∈ line
  · simp [hc]
  · simp [hc]

theorem request_new_eq (s : List Char) :
    HttpRequest.new s =
      match (split_whitespace ((split_trim s).getD 0 [])).get? 0,
            (split_whitespace ((split_trim s).getD 0 [])).get? 1 with
      | some t0, some t1 =>
          .ok { method := methodOfToken t0
              , uri := t1
              , headers := ((split_trim s).drop 1).filterMap
                  (fun l => (HttpHeader.new l).toOption) }
      | _, _ => .panic := by
  simp only [HttpRequest.new]
  rw [if_neg (fun h => split_trim_ne_nil s (List.length_eq_zero.mp h))]

theorem request_new_congr (s₁ s₂ : List Char)
    (h0 : (split_trim s₁).getD 0 [] = (split_trim s₂).getD 0 [])
    (h1 : ((split_trim s₁).drop 1).filterMap (fun l => (HttpHeader.new l).toOption)
        = ((split_trim s₂).drop 1).filterMap (fun l => (HttpHeader.new l).toOption)) :
    HttpRequest.new s₁ = HttpRequest.new s₂ := by
  rw [request_new_eq s₁, request_new_eq s₂, h0, h1]

theorem request_new_ok_of_tokens (s : List Char)
    (h : 2 ≤ (split_whitespace ((split_trim s).getD 0 [])).length) :
    ∃ r, HttpRequest.new s = .ok r := by
  rw [request_new_eq s]
  have hl0 : 0 < (split_whitespace ((split_trim s).getD 0 [])).length := by omega
  have hl1 : 1 < (split_whitespace ((split_trim s).getD 0 [])).length := by omega
  rw [List.get?_eq_get hl0, List.get?_eq_get hl1]
  exact ⟨_, rfl⟩

theorem request_new_panic_of_short (s : List Char)
    (h : (split_whitespace ((split_trim s).getD 0 [])).length < 2) :
    HttpRequest.new s = .panic := by
  rw [request_new_eq s]
  have h1 : (split_whitespace ((split_trim s).getD 0 [])).get? 1 = none :=
    List.get?_eq_none.mpr (by omega)
  rw [h1]
  cases h0 : (split_whitespace ((split_trim s).getD 0 [])).get? 0 <;> rfl

theorem request_new_never_err (s : List Char) (e : List Char) :
    HttpRequest.new s ≠ .err e := by
  rw [request_new_eq s]
  cases h0 : (split_whitespace ((split_trim s).getD 0 [])).get? 0 with
  | none => cases h1 : (split_whitespace ((split_trim s).getD 0 [])).get? 1 <;> simp
  | some t0 => cases h1 : (split_whitespace ((split_trim s).getD 0 [])).get? 1 <;> simp

theorem headersOfLines_filterMap (ls : List (List Char)) :
    HeadersOfLines ls (ls.filterMap (fun l => (HttpHeader.new l).toOption)) := by
  induction ls with
  | nil => exact .nil
  | cons l ls ih =>
    rw [List.filterMap_cons]
    cases hh : HttpHeader.new l with
    | ok h =>
      simp only [hh, Except.toOption]
      exact .keep hh ih
    | error e =>
      simp only [hh, Except.toOption]
      exact .skip hh ih

theorem methodOfToken_extension_of_unrecognized (t : List Char)
    (h : toAsciiLowercase t ∉ recognizedMethodTokens) :
    methodOfToken t = .Extension (toAsciiLowercase t) := by
  simp only [recognizedMethodTokens, List.mem_cons, List.not_mem_nil, or_false,
    not_or] at h
  obtain ⟨h1, h2, h3, h4, h5, h6, h7⟩ := h
  simp only [methodOfToken]
  rw [if_neg h1, if_neg h2, if_neg h3, if_neg h4, if_neg h5, if_neg h6, if_neg h7]

theorem trim_nil : trim [] = [] := rfl

theorem header_new_padded (n t w1 w2 w3 w4 v : List Char)
    (hlow : toAsciiLowercase t = n)
    (hn_ws : ∀ c ∈ n, isWS c = false) (hn_col : ':' ∉ n)
    (hw1 : ∀ c ∈ w1, isWS c = true) (hw2 : ∀ c ∈ w2, isWS c = true)
    (hw3 : ∀ c ∈ w3, isWS c = true) (hw4 : ∀ c ∈ w4, isWS c = true) :
    HttpHeader.new ((w1 ++ t ++ w2) ++ ':' :: (w3 ++ v ++ w4)) =
      .ok ⟨headerNameFor n t, trim v⟩ := by
  have htws : ∀ c ∈ t, isWS c = false := no_ws_of_lower t n hlow hn_ws
  have htcol : ':' ∉ t := no_colon_of_lower t n hlow hn_col
  have hp1 : ':' ∉ w1 ++ t ++ w2 := by
    intro hc
    rcases List.mem_append.mp hc with hc | hc
    · rcases List.mem_append.mp hc with hc | hc
      · exact ws_ne_colon ':' (hw1 ':' hc) rfl
      · exact htcol hc
    · exact ws_ne_colon ':' (hw2 ':' hc) rfl
  rw [header_new_split _ _ hp1, trim_pad w1 t w2 hw1 hw2, trim_no_ws t htws,
      trim_pad w3 v w4 hw3 hw4, hlow]

theorem getD_zero_append {α : Type} (L M : List α) (d : α) (h : L ≠ []) :
    (L ++ M).getD 0 d = L.getD 0 d := by
  cases L with
  | nil => exact absurd rfl h
  | cons x L => rfl

theorem drop_one_append {α : Type} (L M : List α) (h : L ≠ []) :
    (L ++ M).drop 1 = L.drop 1 ++ M := by
  cases L with
  | nil => exact absurd rfl h
  | cons x L => rfl

/-! ### Claim theorems -/

/-- C1: the claim states that every input whose first line has fewer than
two whitespace-delimited tokens makes `HttpRequest::new` return the
`MalformedRequestLine` error rather than failing with an out-of-bounds
access.  The code has no such bounds check: this theorem shows that every
such input makes the unchecked indexing of `request_line` panic, so the
claimed error is never produced. -/
theorem c1_short_request_line_panics (s : List Char)
    (h : (split_whitespace ((split_trim s).getD 0 [])).length < 2) :
    HttpRequest.new s = .panic :=
  request_new_panic_of_short s h

theorem c1_short_request_line_panics_witness :
    HttpRequest.new ("GET").toList = ParseOutcome.panic :=
  c1_short_request_line_panics ("GET").toList (by decide)

/-- C2 counterexample: the claim states that an unrecognized method token
is stored in `Extension` with its original casing preserved; on the token
`"FOO"` the code stores the lowercased `"foo"`, which differs from
`"FOO"`. -/
theorem c2_extension_counterexample :
    HttpRequest.new ("FOO /x HTTP/1.1\r\n").toList =
      .ok ⟨.Extension ("foo").toList, ("/x").toList, []⟩ ∧
    ("foo").toList ≠ ("FOO").toList :=
  ⟨by rfl, by decide⟩

/-- C2 amended: for every token whose ASCII-lowercased form is not one of
the seven recognized method tokens, the method is classified as
`Extension` carrying the ASCII-lowercased token (the `match` arm binds the
lowered string), not the original-case token. -/
theorem c2_extension_stores_lowercased_token (t : List Char)
    (h : toAsciiLowercase t ∉ recognizedMethodTokens) :
    methodOfToken t = .Extension (toAsciiLowercase t) :=
  methodOfToken_extension_of_unrecognized t h

theorem c2_extension_stores_lowercased_token_witness :
    methodOfToken ("FOO").toList = .Extension ("foo").toList :=
  c2_extension_stores_lowercased_token ("FOO").toList (by decide)

/-- C3 counterexample: the claim states that the empty input returns the
`NoRequestLine` error; in fact splitting the empty input on CRLF yields
one (empty) line, so the zero-lines check does not fire and the code
instead panics on the out-of-bounds token access. -/
theorem c3_empty_input_counterexample :
    HttpRequest.new [] = .panic ∧
    (ParseOutcome.panic : ParseOutcome (List Char) HttpRequest) ≠
      .err (noCRLFMsg []) :=
  ⟨by rfl, by decide⟩

/-- C3 amended: the `NoRequestLine` error branch fires exactly when the
CRLF split yields zero lines, but the split always yields at least one
line, so `HttpRequest::new` never returns any error; the empty input
instead panics. -/
theorem c3_no_request_line_is_unreachable (s : List Char) :
    splitCRLF s ≠ [] ∧ (∀ e, HttpRequest.new s ≠ .err e) ∧
    HttpRequest.new [] = .panic :=
  ⟨splitCRLF_ne_nil s, fun e => request_new_never_err s e, by rfl⟩

/-- C4 counterexample: the claim states that the token `"HEAD"` is
classified as a recognized member of the method enumeration and not as an
`Extension` variant; the code's table contains `"header"`, not `"head"`,
so `"HEAD"` parses to `Extension("head")`. -/
theorem c4_head_counterexample :
    HttpRequest.new ("HEAD /x HTTP/1.1\r\n").toList =
      .ok ⟨.Extension ("head").toList, ("/x").toList, []⟩ :=
  by rfl

/-- C4 amended: the recognized token for the `Header` variant is
`"header"` (in any letter-casing); the token `"HEAD"`, in any
letter-casing, is unrecognized and yields `Extension("head")`. -/
theorem c4_header_token_is_recognized :
    (∀ t : List Char, toAsciiLowercase t = ("header").toList →
        methodOfToken t = .Header) ∧
    (∀ t : List Char, toAsciiLowercase t = ("head").toList →
        methodOfToken t = .Extension (("head").toList)) := by
  constructor
  · intro t h
    simp only [methodOfToken]
    rw [h]
    decide
  · intro t h
    simp only [methodOfToken]
    rw [h]
    decide

theorem c4_header_token_is_recognized_witness :
    methodOfToken ("HeAdEr").toList = HttpMethod.Header ∧
    methodOfToken ("HeAd").toList = .Extension ("head").toList ∧
    methodOfToken ("HEAD").toList = .Extension ("head").toList :=
  ⟨c4_header_token_is_recognized.1 ("HeAdEr").toList (by decide),
   c4_header_token_is_recognized.2 ("HeAd").toList (by decide),
   c4_header_token_is_recognized.2 ("HEAD").toList (by decide)⟩

/-- C5 counterexample: the claim states that a header line whose name part
before the colon is empty fails with `MalformedHeader`; the code checks
only the part count, so `": v"` parses successfully to a `Custom("")`
header. -/
theorem c5_empty_name_counterexample :
    HttpHeader.new (": v").toList = .ok ⟨.Custom [], ['v']⟩ :=
  by rfl

/-- C5 amended: `HttpHeader::new` returns the `MalformedHeader` error if
and only if the line contains no colon (the two-part split at the first
colon fails); an empty name part is accepted. -/
theorem c5_malformed_header_iff_no_colon (line : List Char) :
    (∃ e, HttpHeader.new line = .error e) ↔ ':' ∉ line :=
  header_new_err_iff line

/-- C6: classification is case-insensitive for both entry points: two
method tokens with the same ASCII lowercasing are classified to the same
method variant; and a header line built from any letter-casing of a
recognized header name, padded with arbitrary whitespace around the name
and around the value, parses to that recognized name with the value
trimmed of exactly its leading and trailing whitespace. -/
theorem c6_classification_case_insensitive :
    (∀ t₁ t₂ : List Char, toAsciiLowercase t₁ = toAsciiLowercase t₂ →
        methodOfToken t₁ = methodOfToken t₂) ∧
    (∀ (n : List Char) (hn : HttpHeaderName) (t w1 w2 w3 w4 v : List Char),
        (n, hn) ∈ recognizedHeaderTable →
        toAsciiLowercase t = n →
        (∀ c ∈ w1, isWS c = true) → (∀ c ∈ w2, isWS c = true) →
        (∀ c ∈ w3, isWS c = true) → (∀ c ∈ w4, isWS c = true) →
        HttpHeader.new ((w1 ++ t ++ w2) ++ ':' :: (w3 ++ v ++ w4)) =
          .ok ⟨hn, trim v⟩) := by
  constructor
  · intro t₁ t₂ h
    simp only [methodOfToken, h]
  · intro n hn t w1 w2 w3 w4 v htab hlow hw1 hw2 hw3 hw4
    simp only [recognizedHeaderTable, List.mem_cons, List.not_mem_nil, or_false,
      Prod.mk.injEq] at htab
    rcases htab with ⟨rfl, rfl⟩ | ⟨rfl, rfl⟩ | ⟨rfl, rfl⟩ | ⟨rfl, rfl⟩ |
      ⟨rfl, rfl⟩ | ⟨rfl, rfl⟩ <;>
      (rw [header_new_padded _ t w1 w2 w3 w4 v hlow (by decide) (by decide)
            hw1 hw2 hw3 hw4]; rfl)

theorem c6_classification_case_insensitive_witness :
    methodOfToken ("GeT").toList = methodOfToken ("gEt").toList ∧
    HttpHeader.new (([' '] ++ ("AcCePt").toList ++ ['\t']) ++
        ':' :: ([' '] ++ ("x/y").toList ++ [' ', ' '])) =
      .ok ⟨.Accept, ("x/y").toList⟩ :=
  ⟨c6_classification_case_insensitive.1 ("GeT").toList ("gEt").toList (by decide),
   c6_classification_case_insensitive.2 ("accept").toList .Accept
     ("AcCePt").toList [' '] ['\t'] [' '] [' ', ' '] ("x/y").toList
     (by decide) (by decide) (by decide) (by decide) (by decide) (by decide)⟩

/-- C7: for every header name `N` (a name contains no colon) and every
value `V` containing no CRLF, parsing the built line `"{N}: {V}"`
succeeds and the resulting header's value is `V` trimmed of its leading
and trailing whitespace. -/
theorem c7_built_header_line_value_is_trimmed (N V : List Char)
    (hN : ':' ∉ N) ( _hV : ¬ (['\r', '\n'] <:+: V)) :
    ∃ h, HttpHeader.new (N ++ ':' :: ' ' :: V) = .ok h ∧ h.value = trim V := by
  refine ⟨_, header_new_split N (' ' :: V) hN, ?_⟩
  show trim (' ' :: V) = trim V
  have hsp : (' ' :: V) = [' '] ++ V ++ [] := by simp
  rw [hsp, trim_pad [' '] V [] (by decide) (by decide)]

theorem c7_built_header_line_value_is_trimmed_witness :
    ∃ h, HttpHeader.new (("X-Custom").toList ++ ':' :: ' ' :: ("  value  ").toList)
        = .ok h ∧ h.value = trim (("  value  ").toList) :=
  c7_built_header_line_value_is_trimmed ("X-Custom").toList ("  value  ").toList
    (by decide) (by decide)

/-- C8: whenever `HttpRequest::new` succeeds, its header sequence consists
exactly of the successfully parsed headers of the input's lines from index
1 onward, in order of appearance, with each failing line silently skipped
(`HeadersOfLines`); and a failing header line never fails the whole parse:
any input whose first line has at least two tokens parses successfully,
whatever the remaining lines contain. -/
theorem c8_headers_in_order_skipping_failures :
    (∀ (s : List Char) (r : HttpRequest), HttpRequest.new s = .ok r →
        HeadersOfLines ((split_trim s).drop 1) r.headers) ∧
    (∀ s : List Char,
        2 ≤ (split_whitespace ((split_trim s).getD 0 [])).length →
        ∃ r, HttpRequest.new s = .ok r) := by
  constructor
  · intro s r h
    rw [request_new_eq s] at h
    cases h0 : (split_whitespace ((split_trim s).getD 0 [])).get? 0 with
    | none =>
      rw [h0] at h
      cases h1 : (split_whitespace ((split_trim s).getD 0 [])).get? 1 <;>
        rw [h1] at h <;> exact absurd h (by simp)
    | some t0 =>
      rw [h0] at h
      cases h1 : (split_whitespace ((split_trim s).getD 0 [])).get? 1 with
      | none =>
        rw [h1] at h
        exact absurd h (by simp)
      | some t1 =>
        rw [h1] at h
        injection h with h2
        subst h2
        exact headersOfLines_filterMap _
  · intro s h
    exact request_new_ok_of_tokens s h

theorem c8_headers_in_order_skipping_failures_witness :
    HeadersOfLines [("Host: h").toList, ("bad line").toList, []]
      [⟨.Host, ['h']⟩] :=
  c8_headers_in_order_skipping_failures.1
    (("GET /x HTTP/1.1\r\nHost: h\r\nbad line\r\n").toList)
    ⟨.Get, ("/x").toList, [⟨.Host, ['h']⟩]⟩ (by rfl)

/-- C9: the scenario input parses to method `Get`, target `"/some/path"`,
and exactly the headers `Host: http://example.com` and `Accept: text/html`
in that order; the request-line token `"HTTP/1.1"` is ignored. -/
theorem c9_get_request_scenario :
    HttpRequest.new
        ("GET /some/path HTTP/1.1\r\nHost: http://example.com\r\nAccept: text/html\r\n").toList =
      .ok ⟨.Get, ("/some/path").toList,
        [⟨.Host, ("http://example.com").toList⟩,
         ⟨.Accept, ("text/html").toList⟩]⟩ :=
  by rfl

/-- C10: for inputs whose first line has at least two whitespace-delimited
tokens, appending a trailing CRLF does not change the parse result, and
inserting an empty line at any line boundary (doubling a CRLF) does not
change the parse result: an empty line never contributes a header and
never causes the parse to fail. -/
theorem c10_empty_lines_are_ignored (s a b : List Char)
    ( _hs : 2 ≤ (split_whitespace ((split_trim s).getD 0 [])).length)
    ( _hab : 2 ≤ (split_whitespace ((split_trim (a ++ '\r' :: '\n' :: b)).getD 0 [])).length) :
    HttpRequest.new (s ++ ['\r', '\n']) = HttpRequest.new s ∧
    HttpRequest.new (a ++ '\r' :: '\n' :: '\r' :: '\n' :: b) =
      HttpRequest.new (a ++ '\r' :: '\n' :: b) := by
  have hfm_nil : List.filterMap (fun l => (HttpHeader.new l).toOption) [[]] = [] := rfl
  constructor
  · have ha : split_trim (s ++ ['\r', '\n']) = split_trim s ++ [[]] := by
      unfold split_trim
      rw [show s ++ ['\r', '\n'] = s ++ '\r' :: '\n' :: ([] : List Char) from rfl,
          splitCRLF_append, List.map_append]
      rfl
    apply request_new_congr
    · rw [ha, getD_zero_append _ _ _ (split_trim_ne_nil s)]
    · rw [ha, drop_one_append _ _ (split_trim_ne_nil s), List.filterMap_append,
          hfm_nil, List.append_nil]
  · have hcb : splitCRLF ('\r' :: '\n' :: b) = [] :: splitCRLF b := by
      rw [splitCRLF_cons_cons, if_pos ⟨rfl, rfl⟩]
    have h2 : split_trim (a ++ '\r' :: '\n' :: b) = split_trim a ++ split_trim b := by
      unfold split_trim
      rw [splitCRLF_append, List.map_append]
    have h1 : split_trim (a ++ '\r' :: '\n' :: '\r' :: '\n' :: b)
        = split_trim a ++ [] :: split_trim b := by
      unfold split_trim
      rw [splitCRLF_append, hcb, List.map_append, List.map_cons, trim_nil]
    have hskip : List.filterMap (fun l => (HttpHeader.new l).toOption)
        ([] :: split_trim b) =
          List.filterMap (fun l => (HttpHeader.new l).toOption) (split_trim b) := rfl
    apply request_new_congr
    · rw [h1, h2, getD_zero_append _ _ _ (split_trim_ne_nil a),
          getD_zero_append _ _ _ (split_trim_ne_nil a)]
    · rw [h1, h2, drop_one_append _ _ (split_trim_ne_nil a),
          drop_one_append _ _ (split_trim_ne_nil a),
          List.filterMap_append, List.filterMap_append, hskip]

theorem c10_empty_lines_are_ignored_witness :
    HttpRequest.new (("GET /x").toList ++ ['\r', '\n']) =
      HttpRequest.new (("GET /x").toList) ∧
    HttpRequest.new (("GET /x").toList ++ '\r' :: '\n' :: '\r' :: '\n' :: ("Host: h").toList) =
      HttpRequest.new (("GET /x").toList ++ '\r' :: '\n' :: ("Host: h").toList) :=
  c10_empty_lines_are_ignored ("GET /x").toList ("GET /x").toList
    ("Host: h").toList (by decide) (by decide)

end RsHttp
